import Mathlib

/-!
Verification development for the membit collector (Upstash-backed staging
queue / read log pipeline).

The embedding models the Redis-backed state of the collector as a `Store`
record holding the six persistent keys used by the code
(membit:input:list, membit:input:seen, membit:read:list, membit:read:seen,
membit:processing:list, membit:last_date).  Redis lists are Lean lists with
the head at index 0 (so rpush appends at the tail, lpush prepends at the
head, rpoplpush pops the tail of the source and pushes it onto the head of
the destination, and lrem with count 1 removes the first occurrence from
the head).  Redis sets are lists of strings queried by membership; sadd
reports whether the member was newly added.

Strings stored in lists are abstracted by `RVal`:
an entry either parses (JSON.parse) to a truthy object, modelled as an
`Item`; or parses successfully to a falsy JSON value such as 0, false,
null or the empty JSON string (constructor `falsy`, carrying the raw
text); or fails to parse (constructor `raw`, carrying the raw text).
This distinction matters because the code guards both on parse failure
and on JavaScript truthiness of the parsed value.

An `Item` abstracts a parsed record: its optional `rest_id` and `id`
fields (JavaScript values that may themselves be falsy), the remaining
payload collapsed into `text`, and a `gen` flag recording whether the
flush attached a `_generated_id` bookkeeping field (the random generated
identifier is never used for deduplication, so only its presence is
modelled).  Re-stringification of a parsed value is the identity on this
abstraction; for `falsy` entries reached by the bootstrap path the real
code re-stringifies the parsed falsy value, which can normalise
whitespace, but no later operation inspects the text of a falsy read-log
entry, so the model keeps the original text.

Submission bodies are modelled as sequences of records (objects):
posting non-object JSON values is outside the scope of the claims, and
such values would in any case stage unidentified non-empty strings that
no claim distinguishes from wrapped records.

The namespace `Membit` models the Express server variant
(membit-collector-server.js); the namespace `MembitApi` models the
serverless api/collector.js variant.  Store failures are modelled only
where a claim is about them, via an explicit failure schedule
(`Membit.drainLoopF`): a scheduled failure makes the first store call of
the per-item try block throw before mutating anything, exactly the
fail path the code catches.
-/

/-- A JavaScript primitive value that can sit in the id fields of a
record: a string or an integer number.  `truthy` is JavaScript
truthiness, `toStr` is the String(x) conversion applied by the code
before set operations. -/
inductive JsVal where
  | str : String → JsVal
  | num : Int → JsVal
deriving DecidableEq, Repr

def JsVal.truthy : JsVal → Bool
  | .str s => s ≠ ""
  | .num n => n ≠ 0

def JsVal.toStr : JsVal → String
  | .str s => s
  | .num n => toString n

/-- A parsed record.  `rest_id` and `id` are absent (none) or carry a
JavaScript value; `text` stands for the rest of the payload; `gen`
records whether a `_generated_id` bookkeeping field was attached by the
flush. -/
structure Item where
  rest_id : Option JsVal := none
  id : Option JsVal := none
  text : String := ""
  gen : Bool := false
deriving DecidableEq, Repr

/-- A string stored in a Redis list: it parses to a truthy object
(`item`), parses to a falsy JSON value (`falsy`, keeping the raw text),
or fails to parse (`raw`, keeping the raw text). -/
inductive RVal where
  | item : Item → RVal
  | falsy : String → RVal
  | raw : String → RVal
deriving DecidableEq, Repr

/-- Whether the stored string underlying an entry is the empty string —
the only stored string that is falsy in JavaScript.  The pop loops of
the source break when the popped string is falsy (if (!s) break, after
the pop has already happened), so this guard matters there.  An entry
that parses (item or falsy) is never the empty string, since the empty
string does not parse. -/
def RVal.isEmptyStr : RVal → Bool
  | .item _ => false
  | .falsy s => s = ""
  | .raw s => s = ""

/-- itemIdOf from the source: it?.rest_id ?? it?.id ?? null
(nullish coalescing, so a present-but-falsy rest_id is returned). -/
def itemIdOf (it : Item) : Option JsVal :=
  match it.rest_id with
  | some v => some v
  | none => it.id

/-- The identifier the code actually deduplicates on: the code computes
itemIdOf and then branches on JavaScript truthiness (if (!id) ...);
when the value is truthy it is converted with String(id).  So a record
has an effective identifier exactly when itemIdOf yields a truthy value. -/
def effId (it : Item) : Option String :=
  match itemIdOf it with
  | none => none
  | some v => if v.truthy then some v.toStr else none

/-- The effective identifier of a stored list entry: only entries that
parse to a truthy object can carry one. -/
def entryId : RVal → Option String
  | .item it => effId it
  | .falsy _ => none
  | .raw _ => none

/-- The state of the six persistent Redis keys used by the collector. -/
structure Store where
  inputList : List RVal
  inputSeen : List String
  readList : List RVal
  readSeen : List String
  processing : List RVal
  lastDate : Option String
deriving DecidableEq, Repr

def emptyStore : Store :=
  { inputList := [], inputSeen := [], readList := [], readSeen := [],
    processing := [], lastDate := none }

/-- Redis SADD on a single member: returns whether the member was newly
added, together with the updated set. -/
def sadd (s : List String) (m : String) : Bool × List String :=
  if m ∈ s then (false, s) else (true, m :: s)

/-- The identifiers of identified records currently in the read log. -/
def readIds (st : Store) : List String := st.readList.filterMap entryId

/-- The identifiers of identified records currently in the staging queue. -/
def inputIds (st : Store) : List String := st.inputList.filterMap entryId

/-- Redis LRANGE with a non-negative start index and a possibly negative
stop index (negative stop counts from the end, both endpoints
inclusive, out-of-range stop clamped). -/
def lrange (l : List RVal) (start : Nat) (stop : Int) : List RVal :=
  let stopIdx : Int := if stop < 0 then (l.length : Int) + stop else stop
  (l.take (stopIdx + 1).toNat).drop start

namespace Membit

/-- checkAndResetDaily from membit-collector-server.js: when the stored
last date differs from today (including when it was never set), delete
INPUT_LIST, INPUT_SEEN, READ_LIST and READ_SEEN and store today;
otherwise do nothing.  The processing list is not touched. -/
def checkAndResetDaily (today : String) (st : Store) : Store :=
  if st.lastDate = some today then st
  else
    { st with inputList := [], inputSeen := [], readList := [],
              readSeen := [], lastDate := some today }

/-- recoverProcessingList loop body: repeatedly RPOP the processing list
and LPUSH the popped entry onto the input list, counting moves.  The
loop guard is if (!itm) break, checked after the pop: a popped
empty-string entry is falsy, so the loop stops there, dropping that
entry (already popped, never pushed).  Fuel is the number of remaining
iterations; the caller passes the processing list length, which the
loop never exceeds. -/
def recoverGo : Nat → Store → Nat → Store × Nat
  | 0, st, n => (st, n)
  | fuel + 1, st, n =>
    match st.processing.getLast? with
    | none => (st, n)
    | some itm =>
      if itm.isEmptyStr then
        ({ st with processing := st.processing.dropLast }, n)
      else
        recoverGo fuel
          { st with processing := st.processing.dropLast,
                    inputList := itm :: st.inputList } (n + 1)

/-- recoverProcessingList from the source: if the processing list is
empty return 0 moved, otherwise drain it back onto the input list. -/
def recoverProcessingList (st : Store) : Store × Nat :=
  if st.processing.length = 0 then (st, 0)
  else recoverGo st.processing.length st 0

/-- readListLooksValid from the source: LINDEX READ_LIST 0; a missing or
empty-string first entry is falsy and reported invalid; otherwise the
entry is valid exactly when JSON.parse succeeds on it. -/
def readListLooksValid (st : Store) : Bool :=
  match st.readList.head? with
  | none => false
  | some (.item _) => true
  | some (.falsy _) => true
  | some (.raw _) => false

/-- One iteration of the ensureReadStructures bootstrap loop: parse the
staged string (wrapping parse failures as a text-only record), RPUSH the
re-stringified value onto READ_LIST, and SADD its identifier (when
truthy) into READ_SEEN.  Falsy parses carry no identifier. -/
def bootStep (st : Store) (v : RVal) : Store :=
  match v with
  | .item it =>
      let st1 := { st with readList := st.readList ++ [RVal.item it] }
      match effId it with
      | some i => { st1 with readSeen := (sadd st1.readSeen i).2 }
      | none => st1
  | .falsy s => { st with readList := st.readList ++ [RVal.falsy s] }
  | .raw s => { st with readList := st.readList ++ [RVal.item { text := s }] }

/-- The read-log entry the bootstrap writes for a staged entry: parsed
entries are re-stringified unchanged, parse failures are wrapped as
text-only records. -/
def bootEntry : RVal → RVal
  | .item it => .item it
  | .falsy s => .falsy s
  | .raw s => .item { text := s }

/-- The ensureReadStructures bootstrap loop over the staged entries,
counting successfully moved items. -/
def bootFold : List RVal → Store → Nat → Store × Nat
  | [], st, n => (st, n)
  | v :: rest, st, n => bootFold rest (bootStep st v) (n + 1)

/-- ensureReadStructures from the source: clear an invalid non-empty
read log; then, if the read log is empty and the input list is not,
bulk-copy every staged entry into the read log (bootstrap), clear
INPUT_LIST and INPUT_SEEN when at least one item moved, and return the
moved count; return 0 when there was nothing to bootstrap from, and -1
when the read log is non-empty (no bootstrap). -/
def ensureReadStructures (st : Store) : Store × Int :=
  let st1 :=
    if st.readList.length > 0 ∧ readListLooksValid st = false then
      { st with readList := [], readSeen := [] }
    else st
  if st1.readList.length = 0 then
    let inputs := st1.inputList
    if inputs.isEmpty then (st1, 0)
    else
      let (st2, moved) := bootFold inputs st1 0
      if moved > 0 then
        ({ st2 with inputList := [], inputSeen := [] }, moved)
      else (st2, moved)
  else (st1, -1)

/-- The steady-state drain loop of flushAll, failure-free: RPOPLPUSH one
entry from the input list to the processing list; wrap unparseable or
falsy entries as text-only records; append no-id records with a
generated bookkeeping id; deduplicate identified records against
READ_SEEN (SADD newly-added means append, already-present means silent
drop); then LREM the entry from the processing list and continue.  The
CHUNK_SIZE throttle in the source is a pure sleep with no state effect
and is not modelled.  The loop guard is if (!s) break, checked after
the RPOPLPUSH: popping an empty-string entry stops the loop with that
entry already moved to the processing list.  Fuel bounds the iteration
count; the caller passes the input list length, which the failure-free
loop never exceeds. -/
def drainLoop : Nat → Store → Nat → Store × Nat
  | 0, st, fl => (st, fl)
  | fuel + 1, st, fl =>
    match st.inputList.getLast? with
    | none => (st, fl)
    | some s =>
      let st1 := { st with inputList := st.inputList.dropLast,
                           processing := s :: st.processing }
      if s.isEmptyStr then (st1, fl)
      else
      match s with
      | .raw str =>
          let st2 := { st1 with readList := st1.readList ++ [RVal.item { text := str }] }
          drainLoop fuel { st2 with processing := st2.processing.erase s } (fl + 1)
      | .falsy str =>
          let st2 := { st1 with readList := st1.readList ++ [RVal.item { text := str }] }
          drainLoop fuel { st2 with processing := st2.processing.erase s } (fl + 1)
      | .item parsed =>
        match effId parsed with
        | none =>
            let st2 := { st1 with
              readList := st1.readList ++ [RVal.item { parsed with gen := true }] }
            drainLoop fuel { st2 with processing := st2.processing.erase s } (fl + 1)
        | some i =>
          match sadd st1.readSeen i with
          | (true, rs) =>
              let st2 := { st1 with readSeen := rs,
                                    readList := st1.readList ++ [RVal.item parsed] }
              drainLoop fuel { st2 with processing := st2.processing.erase s } (fl + 1)
          | (false, _) =>
              drainLoop fuel { st1 with processing := st1.processing.erase s } fl

/-- flushAll from the source: try the bootstrap path first; a
non-negative bootstrap count is reported with bootstrap true; otherwise
run the steady-state drain loop and report its count with bootstrap
false. -/
def flushAll (st : Store) : Store × Nat × Bool :=
  let (st1, boot) := ensureReadStructures st
  if boot ≥ 0 then (st1, boot.toNat, true)
  else
    let (st2, fl) := drainLoop st1.inputList.length st1 0
    (st2, fl, false)

end Membit

/-- The shape of a submission request body after express/bodyParser: a
JSON array, an object carrying a posts array, or anything else
(rejected by validation). -/
inductive Body where
  | arr : List Item → Body
  | posts : List Item → Body
  | invalid : Body
deriving DecidableEq, Repr

/-- The response of the submission endpoint: HTTP 400 validation error,
or HTTP 201 with accepted and skipped counts and the staging depth. -/
inductive SubmitResp where
  | badRequest : SubmitResp
  | created : Nat → Nat → Nat → SubmitResp
deriving DecidableEq, Repr

def Body.itemsOf : Body → Option (List Item)
  | .arr items => some items
  | .posts items => some items
  | .invalid => none

namespace Membit

/-- One iteration of the POST /collector loop
(membit-collector-server.js): records without a truthy identifier are
appended unconditionally and accepted; identified records are skipped
when the identifier is in READ_SEEN, otherwise SADDed into INPUT_SEEN
and appended exactly when newly added.  Returns the updated store and
whether the record was accepted. -/
def submitItem (st : Store) (it : Item) : Store × Bool :=
  match effId it with
  | none => ({ st with inputList := st.inputList ++ [RVal.item it] }, true)
  | some i =>
    if i ∈ st.readSeen then (st, false)
    else
      match sadd st.inputSeen i with
      | (true, s2) =>
          ({ st with inputSeen := s2,
                     inputList := st.inputList ++ [RVal.item it] }, true)
      | (false, _) => (st, false)

/-- The POST /collector loop with its accepted and skipped counters. -/
def submitLoop : Store → List Item → Nat × Nat → Store × Nat × Nat
  | st, [], (a, k) => (st, a, k)
  | st, it :: rest, (a, k) =>
    match submitItem st it with
    | (st2, true) => submitLoop st2 rest (a + 1, k)
    | (st2, false) => submitLoop st2 rest (a, k + 1)

/-- The POST /collector handler (membit-collector-server.js): run the
daily-reset check, validate the body shape (array, or object with a
posts array; anything else is a 400), run the submission loop, and
answer 201 with the counts and the staging depth. -/
def postCollector (today : String) (st : Store) (b : Body) : Store × SubmitResp :=
  let st0 := checkAndResetDaily today st
  match b.itemsOf with
  | none => (st0, .badRequest)
  | some items =>
      let (st1, a, k) := submitLoop st0 items (0, 0)
      (st1, .created a k st1.inputList.length)

/-- The readSlice mapper of membit-collector-server.js: an empty-string
entry maps to null and is filtered out; an entry that parses keeps its
parsed value, which the Boolean filter then drops exactly when falsy; an
entry that fails to parse is wrapped as a text-only record (itself
truthy, hence kept). -/
def sliceWrap : RVal → Option Item
  | .item it => some it
  | .falsy _ => none
  | .raw s => if s = "" then none else some { text := s }

/-- readSlice from membit-collector-server.js: LRANGE from offset to
offset + count - 1 inclusive, then the mapper above. -/
def readSlice (st : Store) (offset count : Nat) : List Item :=
  (lrange st.readList offset ((offset : Int) + (count : Int) - 1)).filterMap sliceWrap

/-- Paging the read log from offset 0 to the end with fixed page size k:
the concatenation of the slices for pages 0, 1, ... covering the raw
stored length. -/
def pageAll (st : Store) (k : Nat) : List Item :=
  ((List.range ((st.readList.length + k - 1) / k)).map
    (fun i => readSlice st (i * k) k)).flatten

/-- A store operation performed by the drain loop, for stating in which
order the failure path touches the store. -/
inductive ROp where
  | popToProcessing : RVal → ROp
  | rpushRead : RVal → ROp
  | saddReadSeen : String → ROp
  | lpushInput : RVal → ROp
  | lremProcessing : RVal → ROp
deriving DecidableEq, Repr

/-- The drain loop of flushAll with an explicit failure schedule and an
operation trace.  Iteration k of the loop is failed when failAt k is
true: the first store call of the per-item try block (the RPUSH for
unparseable, falsy or no-id entries, the SADD for identified entries)
throws before mutating anything, and the code's catch handler LPUSHes
the raw entry back onto the head of the input list; the LREM of the
entry from the processing list then runs either way, and the loop
continues.  Successful store operations are recorded in the trace in
program order.  Returns none when fuel runs out before the loop
exits. -/
def drainLoopF (failAt : Nat → Bool) :
    Nat → Nat → Store → Nat → List ROp → Option (Store × Nat × List ROp)
  | 0, _, _, _, _ => none
  | fuel + 1, k, st, fl, tr =>
    match st.inputList.getLast? with
    | none => some (st, fl, tr)
    | some s =>
      let st1 := { st with inputList := st.inputList.dropLast,
                           processing := s :: st.processing }
      let tr1 := tr ++ [ROp.popToProcessing s]
      if s.isEmptyStr then some (st1, fl, tr1)
      else
      if failAt k then
        let st2 := { st1 with inputList := s :: st1.inputList }
        let st3 := { st2 with processing := st2.processing.erase s }
        drainLoopF failAt fuel (k + 1) st3 fl
          (tr1 ++ [ROp.lpushInput s, ROp.lremProcessing s])
      else
        match s with
        | .raw str =>
            let st2 := { st1 with readList := st1.readList ++ [RVal.item { text := str }] }
            drainLoopF failAt fuel (k + 1)
              { st2 with processing := st2.processing.erase s } (fl + 1)
              (tr1 ++ [ROp.rpushRead (RVal.item { text := str }), ROp.lremProcessing s])
        | .falsy str =>
            let st2 := { st1 with readList := st1.readList ++ [RVal.item { text := str }] }
            drainLoopF failAt fuel (k + 1)
              { st2 with processing := st2.processing.erase s } (fl + 1)
              (tr1 ++ [ROp.rpushRead (RVal.item { text := str }), ROp.lremProcessing s])
        | .item parsed =>
          match effId parsed with
          | none =>
              let pushed : RVal := RVal.item { parsed with gen := true }
              let st2 := { st1 with readList := st1.readList ++ [pushed] }
              drainLoopF failAt fuel (k + 1)
                { st2 with processing := st2.processing.erase s } (fl + 1)
                (tr1 ++ [ROp.rpushRead pushed, ROp.lremProcessing s])
          | some i =>
            match sadd st1.readSeen i with
            | (true, rs) =>
                let st2 := { st1 with readSeen := rs,
                                      readList := st1.readList ++ [RVal.item parsed] }
                drainLoopF failAt fuel (k + 1)
                  { st2 with processing := st2.processing.erase s } (fl + 1)
                  (tr1 ++ [ROp.saddReadSeen i, ROp.rpushRead (RVal.item parsed),
                           ROp.lremProcessing s])
            | (false, _) =>
                drainLoopF failAt fuel (k + 1)
                  { st1 with processing := st1.processing.erase s } fl
                  (tr1 ++ [ROp.saddReadSeen i, ROp.lremProcessing s])

/-- flushAll with the failure schedule threaded into the drain loop (the
bootstrap path is failure-free; failures are injected only where claim
C3 is about them).  Fuel bounds the drain loop. -/
def flushAllF (failAt : Nat → Bool) (fuel : Nat) (st : Store) :
    Option (Store × Nat × Bool × List ROp) :=
  let (st1, boot) := ensureReadStructures st
  if boot ≥ 0 then some (st1, boot.toNat, true, [])
  else
    match drainLoopF failAt fuel 0 st1 0 [] with
    | none => none
    | some (st2, fl, tr) => some (st2, fl, false, tr)

end Membit

namespace MembitApi

/-- checkAndResetDaily from api/collector.js: on a date change clear
only INPUT_LIST and INPUT_SEEN (the read log is preserved as an
archive), then store today; otherwise do nothing. -/
def checkAndResetDaily (today : String) (st : Store) : Store :=
  if st.lastDate = some today then st
  else { st with inputList := [], inputSeen := [], lastDate := some today }

/-- The readSlice mapper of api/collector.js: parse each entry, mapping
parse failures to null; the Boolean filter then keeps exactly the
entries that parsed to a truthy value. -/
def parseDrop : RVal → Option Item
  | .item it => some it
  | .falsy _ => none
  | .raw _ => none

/-- readSlice from api/collector.js: LRANGE from offset to
offset + count - 1 inclusive, then parse-and-drop. -/
def readSlice (st : Store) (offset count : Nat) : List Item :=
  (lrange st.readList offset ((offset : Int) + (count : Int) - 1)).filterMap parseDrop

/-- Paging the read log from offset 0 to the end with fixed page size k:
the concatenation of the slices for pages 0, 1, ... covering the raw
stored length. -/
def pageAll (st : Store) (k : Nat) : List Item :=
  ((List.range ((st.readList.length + k - 1) / k)).map
    (fun i => readSlice st (i * k) k)).flatten

/-- One iteration of the POST loop of api/collector.js: records without
a truthy identifier are appended unconditionally; identified records are
deduplicated against INPUT_SEEN only (no READ_SEEN check in this
variant). -/
def submitItem (st : Store) (it : Item) : Store × Bool :=
  match effId it with
  | none => ({ st with inputList := st.inputList ++ [RVal.item it] }, true)
  | some i =>
    match sadd st.inputSeen i with
    | (true, s2) =>
        ({ st with inputSeen := s2,
                   inputList := st.inputList ++ [RVal.item it] }, true)
    | (false, _) => (st, false)

/-- The POST loop of api/collector.js with its counters. -/
def submitLoop : Store → List Item → Nat × Nat → Store × Nat × Nat
  | st, [], (a, k) => (st, a, k)
  | st, it :: rest, (a, k) =>
    match submitItem st it with
    | (st2, true) => submitLoop st2 rest (a + 1, k)
    | (st2, false) => submitLoop st2 rest (a, k + 1)

/-- The POST branch of the api/collector.js handler: daily-reset check,
body-shape validation (400 for anything that is neither an array nor an
object with a posts array), the submission loop, and a 201 with counts
and staging depth. -/
def postCollector (today : String) (st : Store) (b : Body) : Store × SubmitResp :=
  let st0 := checkAndResetDaily today st
  match b.itemsOf with
  | none => (st0, .badRequest)
  | some items =>
      let (st1, a, k) := submitLoop st0 items (0, 0)
      (st1, .created a k st1.inputList.length)

end MembitApi

/-- The states of membit-collector-server.js reachable from the empty
store by any sequence of submissions (each POST runs the daily-reset
check first), flushes, stand-alone daily-reset checks, and startup
recoveries of the processing list. -/
inductive Reachable : Store → Prop
  | empty : Reachable emptyStore
  | submit (today : String) (b : Body) {st : Store} :
      Reachable st → Reachable (Membit.postCollector today st b).1
  | flush {st : Store} : Reachable st → Reachable (Membit.flushAll st).1
  | reset (today : String) {st : Store} :
      Reachable st → Reachable (Membit.checkAndResetDaily today st)
  | recover {st : Store} : Reachable st → Reachable (Membit.recoverProcessingList st).1

/-- The inductive invariant of the collector state: the processing list
is empty between operations; the identifiers of identified records in
the read log are pairwise distinct; READ_SEEN is exactly the set of
those identifiers; the identifiers of identified staged records are
pairwise distinct; every staged identifier is in INPUT_SEEN; and no
staged entry is the empty string (submissions only ever stage
JSON.stringify output, which is never empty). -/
def StoreInv (st : Store) : Prop :=
  st.processing = [] ∧
  (readIds st).Nodup ∧
  (∀ i, i ∈ st.readSeen ↔ i ∈ readIds st) ∧
  (inputIds st).Nodup ∧
  (∀ i ∈ inputIds st, i ∈ st.inputSeen) ∧
  (∀ e ∈ st.inputList, RVal.isEmptyStr e = false)

/-! ### General list helpers -/

theorem lastDecomp {α : Type} {l : List α} {a : α} (h : l.getLast? = some a) :
    l = l.dropLast ++ [a] :=
  (List.dropLast_append_getLast? a h).symm

theorem lastNone {α : Type} {l : List α} (h : l.getLast? = none) : l = [] :=
  List.getLast?_eq_none_iff.mp h

theorem lastMem {α : Type} {l : List α} {a : α} (h : l.getLast? = some a) : a ∈ l :=
  List.mem_of_mem_getLast? h

theorem dropLastMem {α : Type} {l : List α} {e : α} (h : e ∈ l.dropLast) : e ∈ l :=
  (List.dropLast_sublist l).subset h

/-! ### Daily reset (claim C9) -/

/-- Claim C9: on every inbound request the handlers first run the
daily-reset check; when the persisted last-reset date differs from the
current UTC date (including when no date was ever persisted), the server
variant clears the staging queue, staging-seen set, read log and
read-seen set and persists today, while the api variant clears only the
staging queue and staging-seen set; when the persisted date equals
today, neither variant modifies any store state. -/
theorem C9_daily_reset (today : String) (st : Store) :
    (st.lastDate = some today →
      Membit.checkAndResetDaily today st = st ∧
      MembitApi.checkAndResetDaily today st = st) ∧
    (st.lastDate ≠ some today →
      Membit.checkAndResetDaily today st =
        { st with inputList := [], inputSeen := [], readList := [],
                  readSeen := [], lastDate := some today } ∧
      MembitApi.checkAndResetDaily today st =
        { st with inputList := [], inputSeen := [], lastDate := some today }) := by
  refine ⟨fun h => ⟨?_, ?_⟩, fun h => ⟨?_, ?_⟩⟩ <;>
    simp [Membit.checkAndResetDaily, MembitApi.checkAndResetDaily, h]

theorem C9_daily_reset_witness :
    (Membit.checkAndResetDaily "2025-06-01"
        { emptyStore with lastDate := some "2025-06-01" } =
      { emptyStore with lastDate := some "2025-06-01" } ∧
     MembitApi.checkAndResetDaily "2025-06-01"
        { emptyStore with lastDate := some "2025-06-01" } =
      { emptyStore with lastDate := some "2025-06-01" }) ∧
    (Membit.checkAndResetDaily "2025-06-01" emptyStore =
      { emptyStore with lastDate := some "2025-06-01" } ∧
     MembitApi.checkAndResetDaily "2025-06-01" emptyStore =
      { emptyStore with lastDate := some "2025-06-01" }) :=
  ⟨(C9_daily_reset "2025-06-01" _).1 (by decide),
   (C9_daily_reset "2025-06-01" emptyStore).2 (by decide)⟩

/-! ### Submission dedupe (claims C5 and C10) -/

/-- Claim C5: for every submitted record carrying a (truthy) identifier,
the server submission path first checks READ_SEEN — a hit counts the
record skipped and leaves the store untouched; otherwise the identifier
is SADDed into INPUT_SEEN, an already-a-member reply counts it skipped
with the store untouched, and a newly-added reply appends the record to
the staging queue and counts it accepted.  Consequently submitting two
records with the same identifier in one call against empty seen sets
yields one accepted and one skipped. -/
theorem C5_submission_dedupe :
    (∀ (st : Store) (it : Item) (i : String), effId it = some i →
      (i ∈ st.readSeen → Membit.submitItem st it = (st, false)) ∧
      (i ∉ st.readSeen → i ∈ st.inputSeen → Membit.submitItem st it = (st, false)) ∧
      (i ∉ st.readSeen → i ∉ st.inputSeen →
        Membit.submitItem st it =
          ({ st with inputSeen := i :: st.inputSeen,
                     inputList := st.inputList ++ [RVal.item it] }, true))) ∧
    (∀ st : Store, st.readSeen = [] → st.inputSeen = [] →
      (Membit.submitLoop st
        [{ id := some (.str "1"), text := "a" }, { id := some (.str "1"), text := "a-dup" }]
        (0, 0)).2 = (1, 1)) := by
  constructor
  · intro st it i h
    refine ⟨fun hr => by simp [Membit.submitItem, h, hr],
            fun hr hi => by simp [Membit.submitItem, h, sadd, hr, hi],
            fun hr hi => by simp [Membit.submitItem, h, sadd, hr, hi]⟩
  · intro st h1 h2
    have e1 : effId { id := some (.str "1"), text := "a" } = some "1" := rfl
    have e2 : effId { id := some (.str "1"), text := "a-dup" } = some "1" := rfl
    simp [Membit.submitLoop, Membit.submitItem, e1, e2, sadd, h1, h2]

theorem C5_submission_dedupe_witness :
    Membit.submitItem { emptyStore with readSeen := ["7"] }
        { id := some (.str "7") } =
      ({ emptyStore with readSeen := ["7"] }, false) ∧
    (Membit.submitLoop emptyStore
      [{ id := some (.str "1"), text := "a" }, { id := some (.str "1"), text := "a-dup" }]
      (0, 0)).2 = (1, 1) :=
  ⟨(C5_submission_dedupe.1 { emptyStore with readSeen := ["7"] }
      { id := some (.str "7") } "7" (by decide)).1 (by decide),
   C5_submission_dedupe.2 emptyStore rfl rfl⟩

theorem submitLoop_replicate_noid {it : Item} (h : effId it = none) :
    ∀ (n : Nat) (st : Store) (a k : Nat),
      (Membit.submitLoop st (List.replicate n it) (a, k)).2 = (a + n, k) := by
  intro n
  induction n with
  | zero => intro st a k; simp [Membit.submitLoop]
  | succ n ih =>
    intro st a k
    rw [List.replicate_succ]
    simp only [Membit.submitLoop, Membit.submitItem, h]
    rw [ih]
    simp only [Prod.mk.injEq]
    exact ⟨by omega, trivial⟩

/-- Claim C10: a submitted record whose id and rest_id fields are both
absent or falsy (for example the number 0 or the empty string) is
treated as carrying no identifier by the server submission path: it is
appended to the staging queue unconditionally and counted accepted, with
INPUT_SEEN untouched and READ_SEEN never consulted (the result does not
depend on the contents of either set, which the universally quantified
store makes explicit), and repeated submissions of such a record are all
accepted. -/
theorem C10_falsy_ids_never_deduped (st : Store) (it : Item)
    (hrest : ∀ v, it.rest_id = some v → v.truthy = false)
    (hid : ∀ v, it.id = some v → v.truthy = false) :
    Membit.submitItem st it =
      ({ st with inputList := st.inputList ++ [RVal.item it] }, true) ∧
    ∀ n, (Membit.submitLoop st (List.replicate n it) (0, 0)).2 = (n, 0) := by
  have hnone : effId it = none := by
    unfold effId itemIdOf
    rcases hr : it.rest_id with _ | v
    · rcases hi : it.id with _ | v
      · rfl
      · simp [hid v hi]
    · simp [hrest v hr]
  refine ⟨by simp [Membit.submitItem, hnone], fun n => ?_⟩
  simpa using submitLoop_replicate_noid hnone n st 0 0

theorem C10_falsy_ids_never_deduped_witness :
    (Membit.submitItem { emptyStore with readSeen := ["0"], inputSeen := ["0"] }
        { rest_id := some (.num 0), id := some (.str "") } =
      ({ emptyStore with readSeen := ["0"], inputSeen := ["0"],
                         inputList := [RVal.item { rest_id := some (.num 0), id := some (.str "") }] },
       true)) ∧
    ∀ n, (Membit.submitLoop { emptyStore with readSeen := ["0"], inputSeen := ["0"] }
      (List.replicate n { rest_id := some (.num 0), id := some (.str "") }) (0, 0)).2 = (n, 0) := by
  have h := C10_falsy_ids_never_deduped
    { emptyStore with readSeen := ["0"], inputSeen := ["0"] }
    { rest_id := some (.num 0), id := some (.str "") }
    (by intro v hv; cases hv; decide) (by intro v hv; cases hv; decide)
  simpa [emptyStore] using h

/-! ### Submission endpoint validation (claim C7) -/

/-- Counterexample to claim C7: submitting an empty array to the server
endpoint is not rejected with HTTP 400 — it is answered HTTP 201 with
zero accepted, zero skipped and the current staging depth. -/
theorem C7_counterexample :
    (Membit.postCollector "2025-06-01" { emptyStore with lastDate := some "2025-06-01" }
      (Body.arr [])).2 = SubmitResp.created 0 0 0 ∧
    (Membit.postCollector "2025-06-01" { emptyStore with lastDate := some "2025-06-01" }
      (Body.arr [])).2 ≠ SubmitResp.badRequest := by
  constructor <;> decide

/-- Claim C7 as amended: only a body that is neither an array nor an
object with a posts array is rejected with HTTP 400, and such a request
leaves the store exactly as the daily-reset check left it; an empty
array (or an object with an empty posts array) is accepted with HTTP
201, zero accepted, zero skipped and the staging depth, again leaving
the store as the reset check left it; and every array-shaped body —
empty or not — is answered with a 201 created response, never a 400.
This holds for both the server and the api variant. -/
theorem C7_amended_validation (today : String) (st : Store) (items : List Item) :
    (Membit.postCollector today st Body.invalid =
      (Membit.checkAndResetDaily today st, SubmitResp.badRequest)) ∧
    (MembitApi.postCollector today st Body.invalid =
      (MembitApi.checkAndResetDaily today st, SubmitResp.badRequest)) ∧
    (Membit.postCollector today st (Body.arr []) =
      (Membit.checkAndResetDaily today st,
       SubmitResp.created 0 0 (Membit.checkAndResetDaily today st).inputList.length)) ∧
    (Membit.postCollector today st (Body.posts []) =
      (Membit.checkAndResetDaily today st,
       SubmitResp.created 0 0 (Membit.checkAndResetDaily today st).inputList.length)) ∧
    (MembitApi.postCollector today st (Body.arr []) =
      (MembitApi.checkAndResetDaily today st,
       SubmitResp.created 0 0 (MembitApi.checkAndResetDaily today st).inputList.length)) ∧
    (MembitApi.postCollector today st (Body.posts []) =
      (MembitApi.checkAndResetDaily today st,
       SubmitResp.created 0 0 (MembitApi.checkAndResetDaily today st).inputList.length)) ∧
    ((Membit.postCollector today st (Body.arr items)).2 ≠ SubmitResp.badRequest) ∧
    ((MembitApi.postCollector today st (Body.arr items)).2 ≠ SubmitResp.badRequest) ∧
    ((Membit.postCollector today st (Body.posts items)).2 ≠ SubmitResp.badRequest) ∧
    ((MembitApi.postCollector today st (Body.posts items)).2 ≠ SubmitResp.badRequest) := by
  refine ⟨rfl, rfl, rfl, rfl, rfl, rfl, ?_, ?_, ?_, ?_⟩ <;>
  · simp only [Membit.postCollector, MembitApi.postCollector, Body.itemsOf]
    rcases Membit.submitLoop (Membit.checkAndResetDaily today st) items (0, 0) with ⟨s1, a, k⟩
    rcases MembitApi.submitLoop (MembitApi.checkAndResetDaily today st) items (0, 0) with ⟨s2, a2, k2⟩
    simp

/-! ### Crash recovery and the flush (claim C2) -/

theorem recoverGo_spec :
    ∀ (fuel : Nat) (st : Store) (n : Nat), st.processing.length ≤ fuel →
      (∀ e ∈ st.processing, RVal.isEmptyStr e = false) →
      Membit.recoverGo fuel st n =
        ({ st with processing := [], inputList := st.processing ++ st.inputList },
         n + st.processing.length) := by
  intro fuel
  induction fuel with
  | zero =>
    intro st n hle hcl
    obtain ⟨il, isn, rl, rs, pr, ld⟩ := st
    have hp : pr = [] := by
      cases pr with
      | nil => rfl
      | cons x xs => simp at hle
    subst hp
    simp [Membit.recoverGo]
  | succ fuel ih =>
    intro st n hle hcl
    obtain ⟨il, isn, rl, rs, pr, ld⟩ := st
    cases h : pr.getLast? with
    | none =>
      have hp : pr = [] := lastNone h
      subst hp
      simp [Membit.recoverGo]
    | some itm =>
      have hle2 : pr.length ≤ fuel + 1 := hle
      have hd : pr = pr.dropLast ++ [itm] := lastDecomp h
      have hlen : pr.length = pr.dropLast.length + 1 := by
        conv_lhs => rw [hd]
        simp
      have hitm : itm.isEmptyStr = false := hcl itm (lastMem h)
      simp only [Membit.recoverGo, h, hitm, Bool.false_eq_true, if_false]
      rw [ih { inputList := itm :: il, inputSeen := isn, readList := rl, readSeen := rs,
               processing := pr.dropLast, lastDate := ld } (n + 1)
            (by show pr.dropLast.length ≤ fuel ; omega)
            (by intro e he ; exact hcl e (dropLastMem he))]
      have hl2 : pr.dropLast ++ itm :: il = pr ++ il := by
        conv_rhs => rw [hd]
        simp
      have hn2 : n + 1 + pr.dropLast.length = n + pr.length := by omega
      simp [hl2]
      omega

theorem recoverProcessingList_spec (st : Store)
    (hcl : ∀ e ∈ st.processing, RVal.isEmptyStr e = false) :
    Membit.recoverProcessingList st =
      ({ st with processing := [], inputList := st.processing ++ st.inputList },
       st.processing.length) := by
  unfold Membit.recoverProcessingList
  by_cases h : st.processing.length = 0
  · rw [if_pos h]
    obtain ⟨il, isn, rl, rs, pr, ld⟩ := st
    have hp : pr = [] := by simpa using h
    subst hp
    simp
  · rw [if_neg h]
    simpa using recoverGo_spec st.processing.length st 0 le_rfl hcl

/-- Counterexample to claim C2: flushAll never touches the in-flight
processing list on its own — recovery runs only at process startup.  A
flush invoked with exactly one serialized item in the processing list,
an empty staging queue and a non-empty read log promotes nothing and
reports zero flushed, leaving the in-flight item where it was, where
the claim demands that the item be promoted with flushed = 1. -/
theorem C2_counterexample :
    Membit.flushAll
      { inputList := [], inputSeen := [],
        readList := [RVal.item { text := "c" }], readSeen := [],
        processing := [RVal.item { id := some (JsVal.str "42"), text := "x" }],
        lastDate := none } =
    ({ inputList := [], inputSeen := [],
       readList := [RVal.item { text := "c" }], readSeen := [],
       processing := [RVal.item { id := some (JsVal.str "42"), text := "x" }],
       lastDate := none }, 0, false) := by
  decide

/-- Claim C2 as amended: the recovery of the in-flight buffer is the
startup routine recoverProcessingList, not a step of flushAll.  Startup
recovery pushes every in-flight entry back onto the head of the staging
queue (all of them, before any flush can move an item out, as long as no
in-flight entry is the empty string — serialized items never are) and
empties the processing list; and from a crashed state with exactly one
serialized (hence non-empty) item in the in-flight buffer and an empty
staging queue, startup recovery followed by a flush promotes that item,
reporting one flushed. -/
theorem C2_amended_recovery :
    (∀ st : Store, (∀ e ∈ st.processing, RVal.isEmptyStr e = false) →
      Membit.recoverProcessingList st =
        ({ st with processing := [], inputList := st.processing ++ st.inputList },
         st.processing.length)) ∧
    (∀ (x : RVal) (d : Option String) (iSeen rSeen : List String),
      RVal.isEmptyStr x = false →
      (Membit.flushAll
        ((Membit.recoverProcessingList
          { inputList := [], inputSeen := iSeen, readList := [], readSeen := rSeen,
            processing := [x], lastDate := d }).1)).2 = (1, true)) := by
  refine ⟨recoverProcessingList_spec, ?_⟩
  intro x d iSeen rSeen hx
  rw [recoverProcessingList_spec _ (by intro e he ; rw [List.mem_singleton] at he ; rw [he] ; exact hx)]
  cases x with
  | item it =>
    cases h : effId it with
    | none =>
      simp [Membit.flushAll, Membit.ensureReadStructures, Membit.readListLooksValid,
            Membit.bootFold, Membit.bootStep, h]
    | some i =>
      simp [Membit.flushAll, Membit.ensureReadStructures, Membit.readListLooksValid,
            Membit.bootFold, Membit.bootStep, h]
  | falsy s =>
    simp [Membit.flushAll, Membit.ensureReadStructures, Membit.readListLooksValid,
          Membit.bootFold, Membit.bootStep]
  | raw s =>
    simp [Membit.flushAll, Membit.ensureReadStructures, Membit.readListLooksValid,
          Membit.bootFold, Membit.bootStep]

theorem C2_amended_recovery_witness :
    Membit.recoverProcessingList
      { inputList := [], inputSeen := [], readList := [], readSeen := [],
        processing := [RVal.item { id := some (JsVal.str "42"), text := "x" }],
        lastDate := none } =
      ({ inputList := [RVal.item { id := some (JsVal.str "42"), text := "x" }],
         inputSeen := [], readList := [], readSeen := [], processing := [],
         lastDate := none }, 1) ∧
    (Membit.flushAll
      ((Membit.recoverProcessingList
        { inputList := [], inputSeen := [], readList := [], readSeen := [],
          processing := [RVal.item { id := some (JsVal.str "42"), text := "x" }],
          lastDate := none }).1)).2 = (1, true) := by
  constructor
  · exact C2_amended_recovery.1
      { inputList := [], inputSeen := [], readList := [], readSeen := [],
        processing := [RVal.item { id := some (JsVal.str "42"), text := "x" }],
        lastDate := none } (by decide)
  · exact C2_amended_recovery.2
      (RVal.item { id := some (JsVal.str "42"), text := "x" }) none [] [] rfl

/-! ### Bootstrap flush (claim C4) -/

theorem entryId_bootEntry (v : RVal) : entryId (Membit.bootEntry v) = entryId v := by
  cases v <;> rfl

theorem bootStep_readList (st : Store) (v : RVal) :
    (Membit.bootStep st v).readList = st.readList ++ [Membit.bootEntry v] := by
  cases v with
  | item it => cases h : effId it <;> simp [Membit.bootStep, Membit.bootEntry, h]
  | falsy s => rfl
  | raw s => rfl

theorem bootStep_readSeen (st : Store) (v : RVal) (i : String) :
    i ∈ (Membit.bootStep st v).readSeen ↔ i ∈ st.readSeen ∨ entryId v = some i := by
  cases v with
  | item it =>
    cases h : effId it with
    | none => simp [Membit.bootStep, h, entryId]
    | some j =>
      simp only [Membit.bootStep, h, entryId, sadd]
      by_cases hj : j ∈ st.readSeen
      · simp only [hj, if_true, Option.some.injEq]
        constructor
        · exact Or.inl
        · rintro (hh | rfl)
          · exact hh
          · exact hj
      · simp only [hj, if_false, List.mem_cons, Option.some.injEq]
        constructor
        · rintro (rfl | hh)
          · exact Or.inr rfl
          · exact Or.inl hh
        · rintro (hh | rfl)
          · exact Or.inr hh
          · exact Or.inl rfl
  | falsy s => simp [Membit.bootStep, entryId]
  | raw s => simp [Membit.bootStep, entryId]

theorem bootStep_frame (st : Store) (v : RVal) :
    (Membit.bootStep st v).inputList = st.inputList ∧
    (Membit.bootStep st v).inputSeen = st.inputSeen ∧
    (Membit.bootStep st v).processing = st.processing ∧
    (Membit.bootStep st v).lastDate = st.lastDate := by
  cases v with
  | item it => cases h : effId it <;> simp [Membit.bootStep, h]
  | falsy s => exact ⟨rfl, rfl, rfl, rfl⟩
  | raw s => exact ⟨rfl, rfl, rfl, rfl⟩

theorem bootFold_count :
    ∀ (l : List RVal) (st : Store) (n : Nat), (Membit.bootFold l st n).2 = n + l.length := by
  intro l
  induction l with
  | nil => intro st n; simp [Membit.bootFold]
  | cons v rest ih =>
    intro st n
    rw [Membit.bootFold, ih]
    simp
    omega

theorem bootFold_readList :
    ∀ (l : List RVal) (st : Store) (n : Nat),
      (Membit.bootFold l st n).1.readList = st.readList ++ l.map Membit.bootEntry := by
  intro l
  induction l with
  | nil => intro st n; simp [Membit.bootFold]
  | cons v rest ih =>
    intro st n
    rw [Membit.bootFold, ih, bootStep_readList]
    simp

theorem bootFold_readSeen :
    ∀ (l : List RVal) (st : Store) (n : Nat) (i : String),
      i ∈ (Membit.bootFold l st n).1.readSeen ↔
        i ∈ st.readSeen ∨ i ∈ l.filterMap entryId := by
  intro l
  induction l with
  | nil => intro st n i; simp [Membit.bootFold]
  | cons v rest ih =>
    intro st n i
    rw [Membit.bootFold, ih, bootStep_readSeen]
    rw [List.filterMap_cons]
    cases h : entryId v with
    | none => simp [h]
    | some j =>
      simp only [h, List.mem_cons, Option.some.injEq]
      constructor
      · rintro ((hh | rfl) | hh)
        · exact Or.inl hh
        · exact Or.inr (Or.inl rfl)
        · exact Or.inr (Or.inr hh)
      · rintro (hh | rfl | hh)
        · exact Or.inl (Or.inl hh)
        · exact Or.inl (Or.inr rfl)
        · exact Or.inr hh

theorem bootFold_frame :
    ∀ (l : List RVal) (st : Store) (n : Nat),
      (Membit.bootFold l st n).1.inputList = st.inputList ∧
      (Membit.bootFold l st n).1.inputSeen = st.inputSeen ∧
      (Membit.bootFold l st n).1.processing = st.processing ∧
      (Membit.bootFold l st n).1.lastDate = st.lastDate := by
  intro l
  induction l with
  | nil => intro st n; exact ⟨rfl, rfl, rfl, rfl⟩
  | cons v rest ih =>
    intro st n
    rw [Membit.bootFold]
    obtain ⟨h1, h2, h3, h4⟩ := ih (Membit.bootStep st v) (n + 1)
    obtain ⟨g1, g2, g3, g4⟩ := bootStep_frame st v
    exact ⟨h1.trans g1, h2.trans g2, h3.trans g3, h4.trans g4⟩

theorem ensure_bootstrap (st : Store) (hr : st.readList = []) (hi : st.inputList ≠ []) :
    Membit.ensureReadStructures st =
      ({ (Membit.bootFold st.inputList st 0).1 with inputList := [], inputSeen := [] },
       (st.inputList.length : Int)) := by
  have hcount : (Membit.bootFold st.inputList st 0).2 = st.inputList.length :=
    by rw [bootFold_count]; omega
  unfold Membit.ensureReadStructures
  simp only [hr, List.length_nil, gt_iff_lt, Nat.lt_irrefl, false_and, if_false, if_pos rfl,
    List.isEmpty_iff, hi, ite_false]
  have hpos : 0 < (Membit.bootFold st.inputList st 0).2 := by
    rw [hcount]; exact List.length_pos.mpr hi
  rw [if_pos trivial, if_pos hpos, hcount]

theorem flush_steady_empty (st : Store) (hin : st.inputList = [])
    (hne : st.readList ≠ []) (hv : Membit.readListLooksValid st = true) :
    Membit.flushAll st = (st, 0, false) := by
  unfold Membit.flushAll Membit.ensureReadStructures
  have h0 : ¬(st.readList.length > 0 ∧ Membit.readListLooksValid st = false) := by
    simp [hv]
  rw [if_neg h0]
  have h1 : ¬(st.readList.length = 0) := by
    simpa [List.length_eq_zero] using hne
  rw [if_neg h1]
  simp [hin, Membit.drainLoop]

/-- Claim C4: whenever the read log is empty and the staging queue is
non-empty with N entries, a flush takes the bootstrap path: it parses
every staged entry, appends all N of them (in order, re-stringified or
wrapped) to the read log, adds each truthy identifier to READ_SEEN,
clears the staging queue and the staging-seen set, does not touch the
in-flight processing list (the per-item transfer loop is skipped), and
reports N flushed with bootstrap true; and a second flush immediately
afterwards reports zero flushed with bootstrap false. -/
theorem C4_bootstrap_flush (st : Store) (hr : st.readList = []) (hi : st.inputList ≠ []) :
    (Membit.flushAll st).2 = (st.inputList.length, true) ∧
    (Membit.flushAll st).1.readList = st.inputList.map Membit.bootEntry ∧
    (∀ i, i ∈ (Membit.flushAll st).1.readSeen ↔ i ∈ st.readSeen ∨ i ∈ inputIds st) ∧
    (Membit.flushAll st).1.inputList = [] ∧
    (Membit.flushAll st).1.inputSeen = [] ∧
    (Membit.flushAll st).1.processing = st.processing ∧
    Membit.flushAll (Membit.flushAll st).1 = ((Membit.flushAll st).1, 0, false) := by
  have hf : Membit.flushAll st =
      ({ (Membit.bootFold st.inputList st 0).1 with inputList := [], inputSeen := [] },
       st.inputList.length, true) := by
    unfold Membit.flushAll
    rw [ensure_bootstrap st hr hi]
    simp
  have hRL : (Membit.bootFold st.inputList st 0).1.readList =
      st.inputList.map Membit.bootEntry := by
    rw [bootFold_readList, hr]
    simp
  rw [hf]
  refine ⟨rfl, hRL, ?_, rfl, rfl, ?_, ?_⟩
  · intro i
    exact bootFold_readSeen st.inputList st 0 i
  · exact (bootFold_frame st.inputList st 0).2.2.1
  · apply flush_steady_empty
    · rfl
    · show (Membit.bootFold st.inputList st 0).1.readList ≠ []
      rw [hRL]
      simpa using hi
    · show Membit.readListLooksValid _ = true
      unfold Membit.readListLooksValid
      obtain ⟨v, rest, hvr⟩ : ∃ v rest, st.inputList = v :: rest := by
        cases hc : st.inputList with
        | nil => exact absurd hc hi
        | cons v rest => exact ⟨v, rest, rfl⟩
      have : (Membit.bootFold st.inputList st 0).1.readList =
          Membit.bootEntry v :: rest.map Membit.bootEntry := by
        rw [hRL, hvr]; rfl
      rw [show ({ (Membit.bootFold st.inputList st 0).1 with
            inputList := [], inputSeen := [] } : Store).readList =
          (Membit.bootFold st.inputList st 0).1.readList from rfl, this]
      cases v with
      | item it => rfl
      | falsy s => rfl
      | raw s => rfl

theorem C4_bootstrap_flush_witness :
    (Membit.flushAll
      { emptyStore with
          inputList := [RVal.item { id := some (.str "1"), text := "a" },
                        RVal.item { id := some (.str "2"), text := "b" },
                        RVal.raw "zz"],
          inputSeen := ["1", "2"] }).2 = (3, true) ∧
    (Membit.flushAll
      (Membit.flushAll
        { emptyStore with
            inputList := [RVal.item { id := some (.str "1"), text := "a" },
                          RVal.item { id := some (.str "2"), text := "b" },
                          RVal.raw "zz"],
            inputSeen := ["1", "2"] }).1).2 = (0, false) := by
  have h := C4_bootstrap_flush
    { emptyStore with
        inputList := [RVal.item { id := some (.str "1"), text := "a" },
                      RVal.item { id := some (.str "2"), text := "b" },
                      RVal.raw "zz"],
        inputSeen := ["1", "2"] } rfl (by decide)
  exact ⟨h.1, by rw [h.2.2.2.2.2.2]⟩

/-! ### Flush idempotence (claim C6) -/

theorem drain_input_nil :
    ∀ (fuel : Nat) (st : Store) (fl : Nat), st.inputList.length ≤ fuel →
      (∀ e ∈ st.inputList, RVal.isEmptyStr e = false) →
      (Membit.drainLoop fuel st fl).1.inputList = [] := by
  intro fuel
  induction fuel with
  | zero =>
    intro st fl h hcl
    have hn : st.inputList = [] := by
      cases hc : st.inputList with
      | nil => rfl
      | cons x xs => rw [hc] at h; simp at h
    simp [Membit.drainLoop, hn]
  | succ fuel ih =>
    intro st fl h hcl
    cases hg : st.inputList.getLast? with
    | none =>
      simp [Membit.drainLoop, hg, lastNone hg]
    | some s =>
      have hne : st.inputList ≠ [] := by
        intro hc
        rw [hc] at hg
        simp at hg
      have hlen : st.inputList.dropLast.length ≤ fuel := by
        rw [List.length_dropLast]
        have : 0 < st.inputList.length := List.length_pos.mpr hne
        omega
      have hcl2 : ∀ e ∈ st.inputList.dropLast, RVal.isEmptyStr e = false :=
        fun e he => hcl e (dropLastMem he)
      have hs : RVal.isEmptyStr s = false := hcl s (lastMem hg)
      simp only [Membit.drainLoop, hg, hs, Bool.false_eq_true, if_false]
      repeat' split
      all_goals (refine ih _ _ ?_ ?_ )
      all_goals first
        | exact hlen
        | exact hcl2

theorem ensure_nonneg_input (st : Store)
    (h : 0 ≤ (Membit.ensureReadStructures st).2) :
    (Membit.ensureReadStructures st).1.inputList = [] := by
  simp only [Membit.ensureReadStructures] at h ⊢
  generalize hst1 :
    (if st.readList.length > 0 ∧ Membit.readListLooksValid st = false
     then { st with readList := [], readSeen := [] } else st) = st1 at h ⊢
  by_cases hz : st1.readList.length = 0
  · rw [if_pos hz] at h ⊢
    by_cases hin : st1.inputList.isEmpty
    · rw [if_pos hin] at h ⊢
      simpa using hin
    · rw [if_neg hin] at h ⊢
      by_cases hp : (Membit.bootFold st1.inputList st1 0).2 > 0
      · rw [if_pos hp] at h ⊢
      · exfalso
        rw [bootFold_count] at hp
        simp only [List.isEmpty_iff] at hin
        have : 0 < st1.inputList.length := List.length_pos.mpr hin
        omega
  · rw [if_neg hz] at h ⊢
    simp at h

theorem ensure_input_cases (st : Store) :
    (Membit.ensureReadStructures st).1.inputList = st.inputList ∨
    (Membit.ensureReadStructures st).1.inputList = [] := by
  simp only [Membit.ensureReadStructures]
  generalize hst1 :
    (if st.readList.length > 0 ∧ Membit.readListLooksValid st = false
     then { st with readList := [], readSeen := [] } else st) = st1
  have hi1 : st1.inputList = st.inputList := by
    rw [← hst1]
    split <;> rfl
  by_cases hz : st1.readList.length = 0
  · rw [if_pos hz]
    by_cases hin : st1.inputList.isEmpty
    · rw [if_pos hin]
      exact Or.inl hi1
    · rw [if_neg hin]
      by_cases hp : (Membit.bootFold st1.inputList st1 0).2 > 0
      · rw [if_pos hp]
        exact Or.inr rfl
      · rw [if_neg hp]
        left
        rw [(bootFold_frame st1.inputList st1 0).1]
        exact hi1
  · rw [if_neg hz]
    exact Or.inl hi1

theorem flushAll_input_nil (st : Store)
    (hcl : ∀ e ∈ st.inputList, RVal.isEmptyStr e = false) :
    (Membit.flushAll st).1.inputList = [] := by
  have hcase := ensure_input_cases st
  rcases h : Membit.ensureReadStructures st with ⟨st1, boot⟩
  rw [h] at hcase
  simp only at hcase
  by_cases hb : boot ≥ 0
  · simp only [Membit.flushAll, h]
    rw [if_pos hb]
    have h2 := ensure_nonneg_input st (by rw [h]; exact hb)
    rw [h] at h2
    exact h2
  · simp only [Membit.flushAll, h]
    rw [if_neg hb]
    have hcl1 : ∀ e ∈ st1.inputList, RVal.isEmptyStr e = false := by
      rcases hcase with hc | hc
      · rw [hc]
        exact hcl
      · rw [hc]
        intro e he
        simp at he
    rcases hd : Membit.drainLoop st1.inputList.length st1 0 with ⟨st2, fl⟩
    have h2 := drain_input_nil st1.inputList.length st1 0 le_rfl hcl1
    rw [hd] at h2
    simpa using h2

theorem ensure_empty_input (st : Store) (h : st.inputList = []) :
    (Membit.ensureReadStructures st).1.inputList = [] ∧
    ((Membit.ensureReadStructures st).2 = 0 ∨ (Membit.ensureReadStructures st).2 = -1) := by
  simp only [Membit.ensureReadStructures]
  generalize hst1 :
    (if st.readList.length > 0 ∧ Membit.readListLooksValid st = false
     then { st with readList := [], readSeen := [] } else st) = st1
  have hi1 : st1.inputList = st.inputList := by
    rw [← hst1]
    split <;> rfl
  by_cases hz : st1.readList.length = 0
  · rw [if_pos hz]
    have he : st1.inputList.isEmpty := by
      rw [hi1, h]
      rfl
    rw [if_pos he]
    exact ⟨hi1.trans h, Or.inl rfl⟩
  · rw [if_neg hz]
    exact ⟨hi1.trans h, Or.inr rfl⟩

theorem flush_zero_of_empty_input (st : Store) (h : st.inputList = []) :
    (Membit.flushAll st).2.1 = 0 := by
  obtain ⟨h1, h2⟩ := ensure_empty_input st h
  rcases hE : Membit.ensureReadStructures st with ⟨st1, boot⟩
  rw [hE] at h1 h2
  simp only at h1 h2
  simp only [Membit.flushAll, hE]
  rcases h2 with rfl | rfl
  · rw [if_pos (by norm_num)]
    rfl
  · rw [if_neg (by norm_num)]
    have hd : Membit.drainLoop st1.inputList.length st1 0 = (st1, 0) := by
      rw [h1]
      rfl
    rw [hd]

/-- Counterexample to claim C6 as universally stated: flushes are not
idempotent from every store state.  If the staging queue holds an
empty-string entry at its tail in front of a further record (a state no
submission produces, but the claim quantifies over every store state),
the first flush pops the empty string and stops at once — the source
checks if (!s) break after the RPOPLPUSH — leaving the other record
staged, and the second flush then promotes it, reporting one flushed
instead of zero. -/
theorem C6_counterexample :
    (Membit.flushAll
      (Membit.flushAll
        { inputList := [RVal.item { id := some (JsVal.str "a") }, RVal.raw ""],
          inputSeen := ["a"],
          readList := [RVal.item { id := some (JsVal.str "c") }],
          readSeen := ["c"], processing := [], lastDate := none }).1).2.1 = 1 := by
  rfl

/-- Claim C6 as amended: for every store state whose staging queue
contains no empty-string entry (submissions only ever stage
JSON.stringify output, which is never empty), running the flush twice
in a row with no submissions in between reports zero flushed from the
second run — such a first flush always leaves the staging queue empty,
and a flush of an empty staging queue promotes nothing. -/
theorem C6_flush_idempotent (st : Store)
    (hcl : ∀ e ∈ st.inputList, RVal.isEmptyStr e = false) :
    (Membit.flushAll (Membit.flushAll st).1).2.1 = 0 :=
  flush_zero_of_empty_input _ (flushAll_input_nil st hcl)

theorem C6_flush_idempotent_witness :
    (Membit.flushAll
      (Membit.flushAll
        { inputList := [RVal.item { id := some (JsVal.str "a") }],
          inputSeen := ["a"],
          readList := [RVal.item { id := some (JsVal.str "c") }],
          readSeen := ["c"], processing := [], lastDate := none }).1).2.1 = 0 :=
  C6_flush_idempotent _ (by decide)

/-! ### Read log pagination (claim C8) -/

theorem lrange_window (l : List RVal) (off k : Nat) (hk : 1 ≤ k) :
    lrange l off ((off : Int) + (k : Int) - 1) = (l.drop off).take k := by
  simp only [lrange]
  have hnn : ¬((off : Int) + (k : Int) - 1 < 0) := by omega
  rw [if_neg hnn]
  have ht : ((off : Int) + (k : Int) - 1 + 1).toNat = off + k := by omega
  rw [ht]
  exact Eq.symm (List.take_drop off k l)

theorem chunk_flatten {α : Type} (k : Nat) (hk : 0 < k) :
    ∀ (n : Nat) (l : List α), l.length ≤ n →
      ((List.range ((l.length + k - 1) / k)).map
        (fun i => (l.drop (i * k)).take k)).flatten = l := by
  intro n
  induction n with
  | zero =>
    intro l hl
    have : l = [] := List.length_eq_zero.mp (Nat.le_zero.mp hl)
    subst this
    have hz : (([] : List α).length + k - 1) / k = 0 :=
      Nat.div_eq_of_lt (by simp; omega)
    rw [hz]
    rfl
  | succ n ih =>
    intro l hl
    cases l with
    | nil =>
      have hz : (([] : List α).length + k - 1) / k = 0 :=
        Nat.div_eq_of_lt (by simp; omega)
      rw [hz]
      rfl
    | cons a l2 =>
      have hlen : 0 < (a :: l2).length := by simp
      have hm : ((a :: l2).length + k - 1) / k = ((a :: l2).length - 1) / k + 1 := by
        have h1 : (a :: l2).length + k - 1 = ((a :: l2).length - 1) + k := by omega
        rw [h1, Nat.add_div_right _ hk]
      have hm2 : (((a :: l2).drop k).length + k - 1) / k = ((a :: l2).length - 1) / k := by
        rw [List.length_drop]
        by_cases hc : (a :: l2).length ≤ k
        · have h1 : (a :: l2).length - k = 0 := by omega
          rw [h1]
          have h2 : ((a :: l2).length - 1) / k = 0 := Nat.div_eq_of_lt (by omega)
          rw [h2]
          exact Nat.div_eq_of_lt (by omega)
        · have h1 : (a :: l2).length - k + k - 1 = (a :: l2).length - 1 := by omega
          rw [h1]
      rw [hm, List.range_succ_eq_map]
      simp only [List.map_cons, List.map_map, List.flatten_cons, Nat.zero_mul,
        List.drop_zero]
      have hstep :
          ((List.range (((a :: l2).length - 1) / k)).map
            ((fun i => ((a :: l2).drop (i * k)).take k) ∘ Nat.succ)).flatten =
          ((List.range ((((a :: l2).drop k).length + k - 1) / k)).map
            (fun i => (((a :: l2).drop k).drop (i * k)).take k)).flatten := by
        rw [hm2]
        refine congrArg List.flatten (List.map_eq_map_iff.mpr ?_)
        intro i hi
        simp only [Function.comp_apply]
        have hsm : Nat.succ i * k = k + i * k := by
          rw [Nat.succ_mul]
          omega
        rw [hsm, List.drop_drop]
      have hdrop : ((a :: l2).drop k).length ≤ n := by
        rw [List.length_drop]
        simp only [List.length_cons] at hl ⊢
        omega
      rw [hstep, ih _ hdrop]
      exact List.take_append_drop k (a :: l2)

theorem readSlice_api_window (st : Store) (off k : Nat) (hk : 1 ≤ k) :
    MembitApi.readSlice st off k =
      ((st.readList.drop off).take k).filterMap MembitApi.parseDrop := by
  unfold MembitApi.readSlice
  rw [lrange_window _ _ _ hk]

theorem readSlice_server_window (st : Store) (off k : Nat) (hk : 1 ≤ k) :
    Membit.readSlice st off k =
      ((st.readList.drop off).take k).filterMap Membit.sliceWrap := by
  unfold Membit.readSlice
  rw [lrange_window _ _ _ hk]

/-- Counterexample to claim C8: with a read log holding a single entry
that fails to parse, the api variant reports a total of 1 (the raw
stored length) while paging from offset 0 to the end with page size 1
yields 0 records, so the total does not equal the count obtainable by
paging. -/
theorem C8_counterexample :
    ({ emptyStore with readList := [RVal.raw "x"] } : Store).readList.length = 1 ∧
    (MembitApi.pageAll { emptyStore with readList := [RVal.raw "x"] } 1).length = 0 := by
  constructor <;> rfl

/-- Claim C8 as amended: for every read log state and every page size of
at least 1, paging from offset 0 to the end returns, in both variants,
exactly the per-entry survivors of the whole stored log, while the
reported total reflects the raw stored length: the api variant silently
drops every entry that does not parse to a truthy record, so its paged
count equals the total only when nothing is dropped, and the server
variant instead wraps a non-empty unparseable entry as a raw-text
record, dropping only empty-string entries and entries parsing to falsy
values.  No parse failure is ever surfaced as an error. -/
theorem C8_amended_pagination (st : Store) (k : Nat) (hk : 1 ≤ k) :
    MembitApi.pageAll st k = st.readList.filterMap MembitApi.parseDrop ∧
    Membit.pageAll st k = st.readList.filterMap Membit.sliceWrap := by
  constructor
  · unfold MembitApi.pageAll
    have h1 : (List.range ((st.readList.length + k - 1) / k)).map
        (fun i => MembitApi.readSlice st (i * k) k) =
        (List.range ((st.readList.length + k - 1) / k)).map
        (fun i => ((st.readList.drop (i * k)).take k).filterMap MembitApi.parseDrop) :=
      List.map_eq_map_iff.mpr (fun i _ => readSlice_api_window st (i * k) k hk)
    rw [h1]
    rw [show (List.range ((st.readList.length + k - 1) / k)).map
        (fun i => ((st.readList.drop (i * k)).take k).filterMap MembitApi.parseDrop) =
        ((List.range ((st.readList.length + k - 1) / k)).map
          (fun i => (st.readList.drop (i * k)).take k)).map
          (List.filterMap MembitApi.parseDrop) from by rw [List.map_map]; rfl]
    rw [← List.filterMap_flatten]
    rw [chunk_flatten k hk st.readList.length st.readList le_rfl]
  · unfold Membit.pageAll
    have h1 : (List.range ((st.readList.length + k - 1) / k)).map
        (fun i => Membit.readSlice st (i * k) k) =
        (List.range ((st.readList.length + k - 1) / k)).map
        (fun i => ((st.readList.drop (i * k)).take k).filterMap Membit.sliceWrap) :=
      List.map_eq_map_iff.mpr (fun i _ => readSlice_server_window st (i * k) k hk)
    rw [h1]
    rw [show (List.range ((st.readList.length + k - 1) / k)).map
        (fun i => ((st.readList.drop (i * k)).take k).filterMap Membit.sliceWrap) =
        ((List.range ((st.readList.length + k - 1) / k)).map
          (fun i => (st.readList.drop (i * k)).take k)).map
          (List.filterMap Membit.sliceWrap) from by rw [List.map_map]; rfl]
    rw [← List.filterMap_flatten]
    rw [chunk_flatten k hk st.readList.length st.readList le_rfl]

theorem C8_amended_pagination_witness :
    MembitApi.pageAll { emptyStore with readList := [RVal.raw "x", RVal.item { text := "a" }] } 1 =
      [{ text := "a" }] ∧
    Membit.pageAll { emptyStore with readList := [RVal.raw "x", RVal.item { text := "a" }] } 1 =
      [{ text := "x" }, { text := "a" }] := by
  have h := C8_amended_pagination
    { emptyStore with readList := [RVal.raw "x", RVal.item { text := "a" }] } 1 (by decide)
  exact ⟨h.1, h.2⟩

/-! ### Failure handling in the drain loop (claim C3) -/

/-- Counterexample to claim C3: the drain loop does not abort after a
per-item store failure.  With two identified records staged and a
failure injected at iteration 0, the flush requeues the failed item at
the head of the staging queue and then keeps looping: it promotes the
other record, reaches the requeued item again within the same cycle,
and promotes it too — reporting two flushed and an empty staging
queue, where the claim requires the loop to abort with no further
promotions after the failure. -/
theorem C3_counterexample :
    (Membit.flushAllF (fun k => k == 0) 10
      { inputList := [RVal.item { id := some (JsVal.str "a") },
                      RVal.item { id := some (JsVal.str "b") }],
        inputSeen := ["a", "b"],
        readList := [RVal.item { id := some (JsVal.str "c") }],
        readSeen := ["c"], processing := [], lastDate := none }).map
      (fun r => (r.2.1, r.2.2.1)) = some (2, false) ∧
    (Membit.flushAllF (fun k => k == 0) 10
      { inputList := [RVal.item { id := some (JsVal.str "a") },
                      RVal.item { id := some (JsVal.str "b") }],
        inputSeen := ["a", "b"],
        readList := [RVal.item { id := some (JsVal.str "c") }],
        readSeen := ["c"], processing := [], lastDate := none }).map
      (fun r => r.1.inputList) = some [] := by
  constructor <;> rfl

/-- Claim C3 as amended: when a store operation fails while promoting
one item in the steady-state drain loop, the flush pushes that raw item
back onto the head of the staging queue before removing it from the
in-flight processing list (the operation trace of the failing iteration
is pop, then lpush to the staging head, then lrem from the processing
list), leaves the processing list as it was and the flushed count
unchanged — and then continues the loop with the next item instead of
aborting the cycle.  The popped item is assumed not to be the empty
string: an empty-string pop exits the loop before the per-item try
block, so no per-item failure can occur there (and serialized items
are never empty). -/
theorem C3_amended_requeue_continue (failAt : Nat → Bool) (fuel k fl : Nat)
    (st : Store) (tr : List Membit.ROp) (s : RVal)
    (hs : st.inputList.getLast? = some s) (hs2 : RVal.isEmptyStr s = false)
    (hf : failAt k = true) :
    Membit.drainLoopF failAt (fuel + 1) k st fl tr =
      Membit.drainLoopF failAt fuel (k + 1)
        { st with inputList := s :: st.inputList.dropLast } fl
        (tr ++ [Membit.ROp.popToProcessing s, Membit.ROp.lpushInput s,
                Membit.ROp.lremProcessing s]) := by
  simp only [Membit.drainLoopF, hs, hs2, hf, Bool.false_eq_true, if_false, if_true]
  rw [List.erase_cons_head]
  rw [List.append_assoc]
  rfl

theorem C3_amended_requeue_continue_witness :
    Membit.drainLoopF (fun _ => true) 3 0
      { emptyStore with inputList := [RVal.item { id := some (JsVal.str "a") }] } 0 [] =
    Membit.drainLoopF (fun _ => true) 2 1
      { emptyStore with
          inputList := [RVal.item { id := some (JsVal.str "a") }] } 0
      ([] ++ [Membit.ROp.popToProcessing (RVal.item { id := some (JsVal.str "a") }),
              Membit.ROp.lpushInput (RVal.item { id := some (JsVal.str "a") }),
              Membit.ROp.lremProcessing (RVal.item { id := some (JsVal.str "a") })]) := by
  have h := C3_amended_requeue_continue (fun _ => true) 2 0 0
    { emptyStore with inputList := [RVal.item { id := some (JsVal.str "a") }] } []
    (RVal.item { id := some (JsVal.str "a") }) rfl rfl rfl
  exact h

/-! ### The read-log invariant (claim C1) -/

theorem nodupConcat {l : List String} {a : String} (h1 : l.Nodup) (h2 : a ∉ l) :
    (l ++ [a]).Nodup := by
  rw [List.nodup_append]
  refine ⟨h1, List.nodup_singleton a, ?_⟩
  intro x hx
  simp only [List.mem_singleton]
  intro hxa
  exact h2 (hxa ▸ hx)

theorem sadd_true {s : List String} {m : String} {l : List String}
    (h : sadd s m = (true, l)) : m ∉ s ∧ l = m :: s := by
  unfold sadd at h
  by_cases hm : m ∈ s
  · rw [if_pos hm] at h
    simp at h
  · rw [if_neg hm] at h
    simp at h
    exact ⟨hm, h.symm⟩

theorem sadd_false {s : List String} {m : String} {l : List String}
    (h : sadd s m = (false, l)) : m ∈ s ∧ l = s := by
  unfold sadd at h
  by_cases hm : m ∈ s
  · rw [if_pos hm] at h
    simp at h
    exact ⟨hm, h.symm⟩
  · rw [if_neg hm] at h
    simp at h

theorem storeInv_empty : StoreInv emptyStore := by
  refine ⟨rfl, List.nodup_nil, ?_, List.nodup_nil, ?_, ?_⟩
  · intro i
    simp [emptyStore, readIds]
  · intro i hi
    simp [emptyStore, inputIds] at hi
  · intro e he
    simp [emptyStore] at he

theorem submitItem_inv {st : Store} (it : Item) (h : StoreInv st) :
    StoreInv (Membit.submitItem st it).1 := by
  obtain ⟨hp, hnr, hrs, hni, his, hcl⟩ := h
  have hclApp : ∀ e ∈ st.inputList ++ [RVal.item it], RVal.isEmptyStr e = false := by
    intro e he
    rw [List.mem_append] at he
    rcases he with he | he
    · exact hcl e he
    · rw [List.mem_singleton] at he
      rw [he]
      rfl
  cases he : effId it with
  | none =>
    have heq : Membit.submitItem st it =
        ({ st with inputList := st.inputList ++ [RVal.item it] }, true) := by
      simp [Membit.submitItem, he]
    rw [heq]
    refine ⟨hp, hnr, hrs, ?_, ?_, hclApp⟩
    · simp only [inputIds, List.filterMap_append]
      have h0 : (List.filterMap entryId [RVal.item it]) = [] := by
        simp [entryId, he]
      rw [h0, List.append_nil]
      exact hni
    · intro j hj
      simp only [inputIds, List.filterMap_append] at hj
      rw [List.mem_append] at hj
      rcases hj with hj | hj
      · exact his j hj
      · simp [entryId, he] at hj
  | some i =>
    by_cases hr : i ∈ st.readSeen
    · have heq : Membit.submitItem st it = (st, false) := by
        simp [Membit.submitItem, he, hr]
      rw [heq]
      exact ⟨hp, hnr, hrs, hni, his, hcl⟩
    · by_cases hi2 : i ∈ st.inputSeen
      · have heq : Membit.submitItem st it = (st, false) := by
          simp [Membit.submitItem, he, hr, sadd, hi2]
        rw [heq]
        exact ⟨hp, hnr, hrs, hni, his, hcl⟩
      · have heq : Membit.submitItem st it =
            ({ st with inputSeen := i :: st.inputSeen,
                       inputList := st.inputList ++ [RVal.item it] }, true) := by
          simp [Membit.submitItem, he, hr, sadd, hi2]
        rw [heq]
        refine ⟨hp, hnr, hrs, ?_, ?_, hclApp⟩
        · simp only [inputIds, List.filterMap_append]
          have h1 : (List.filterMap entryId [RVal.item it]) = [i] := by
            simp [entryId, he]
          rw [h1]
          refine nodupConcat hni ?_
          intro hmem
          exact hi2 (his i hmem)
        · intro j hj
          simp only [inputIds, List.filterMap_append] at hj
          rw [List.mem_append] at hj
          rcases hj with hj | hj
          · exact List.mem_cons_of_mem _ (his j hj)
          · simp [entryId, he] at hj
            rw [hj]
            exact List.mem_cons_self i st.inputSeen

theorem submitLoop_inv :
    ∀ (items : List Item) (st : Store) (a k : Nat), StoreInv st →
      StoreInv (Membit.submitLoop st items (a, k)).1 := by
  intro items
  induction items with
  | nil => intro st a k h; exact h
  | cons it rest ih =>
    intro st a k h
    rcases hsi : Membit.submitItem st it with ⟨st2, acc⟩
    have h2 : StoreInv st2 := by
      have h3 := submitItem_inv it h
      rw [hsi] at h3
      exact h3
    cases acc with
    | true =>
      rw [Membit.submitLoop, hsi]
      exact ih st2 (a + 1) k h2
    | false =>
      rw [Membit.submitLoop, hsi]
      exact ih st2 a (k + 1) h2

theorem reset_inv {st : Store} (today : String) (h : StoreInv st) :
    StoreInv (Membit.checkAndResetDaily today st) := by
  unfold Membit.checkAndResetDaily
  by_cases hd : st.lastDate = some today
  · rw [if_pos hd]
    exact h
  · rw [if_neg hd]
    obtain ⟨hp, _, _, _, _, _⟩ := h
    refine ⟨hp, List.nodup_nil, ?_, List.nodup_nil, ?_, ?_⟩
    · intro i
      simp [readIds]
    · intro i hi
      simp [inputIds] at hi
    · intro e he
      simp at he

theorem postCollector_inv {st : Store} (today : String) (b : Body) (h : StoreInv st) :
    StoreInv (Membit.postCollector today st b).1 := by
  unfold Membit.postCollector
  cases hb : b.itemsOf with
  | none => exact reset_inv today h
  | some items =>
    rcases hsl : Membit.submitLoop (Membit.checkAndResetDaily today st) items (0, 0) with
      ⟨st1, a, k⟩
    have h2 := submitLoop_inv items (Membit.checkAndResetDaily today st) 0 0
      (reset_inv today h)
    rw [hsl] at h2
    simp only [hsl]
    exact h2

theorem inputIds_dropLast_nodup {st : Store} (hni : (inputIds st).Nodup) :
    (st.inputList.dropLast.filterMap entryId).Nodup :=
  hni.sublist ((List.dropLast_sublist st.inputList).filterMap entryId)

theorem inputIds_dropLast_sub {st : Store} {j : String}
    (hj : j ∈ st.inputList.dropLast.filterMap entryId) : j ∈ inputIds st :=
  ((List.dropLast_sublist st.inputList).filterMap entryId).subset hj

theorem inv_drop_skip {st : Store} (h : StoreInv st) :
    StoreInv { st with inputList := st.inputList.dropLast } := by
  obtain ⟨hp, hnr, hrs, hni, his, hcl⟩ := h
  exact ⟨hp, hnr, hrs, inputIds_dropLast_nodup hni,
    fun j hj => his j (inputIds_dropLast_sub hj),
    fun e he => hcl e (dropLastMem he)⟩

theorem inv_drop_append_noid {st : Store} (h : StoreInv st) (e : RVal)
    (he : entryId e = none) :
    StoreInv { st with inputList := st.inputList.dropLast,
                       readList := st.readList ++ [e] } := by
  obtain ⟨hp, hnr, hrs, hni, his, hcl⟩ := h
  have hre : (st.readList ++ [e]).filterMap entryId = readIds st := by
    rw [List.filterMap_append]
    simp [he, readIds]
  refine ⟨hp, ?_, ?_, inputIds_dropLast_nodup hni,
    fun j hj => his j (inputIds_dropLast_sub hj),
    fun e2 he2 => hcl e2 (dropLastMem he2)⟩
  · show ((st.readList ++ [e]).filterMap entryId).Nodup
    rw [hre]
    exact hnr
  · intro j
    show j ∈ st.readSeen ↔ j ∈ (st.readList ++ [e]).filterMap entryId
    rw [hre]
    exact hrs j

theorem inv_drop_append_id {st : Store} (h : StoreInv st) (parsed : Item) (i : String)
    (he : effId parsed = some i) (hnew : i ∉ st.readSeen) :
    StoreInv { st with inputList := st.inputList.dropLast,
                       readSeen := i :: st.readSeen,
                       readList := st.readList ++ [RVal.item parsed] } := by
  obtain ⟨hp, hnr, hrs, hni, his, hcl⟩ := h
  have hre : (st.readList ++ [RVal.item parsed]).filterMap entryId = readIds st ++ [i] := by
    rw [List.filterMap_append]
    simp [entryId, he, readIds]
  have hinotin : i ∉ readIds st := fun hc => hnew ((hrs i).mpr hc)
  refine ⟨hp, ?_, ?_, inputIds_dropLast_nodup hni,
    fun j hj => his j (inputIds_dropLast_sub hj),
    fun e2 he2 => hcl e2 (dropLastMem he2)⟩
  · show ((st.readList ++ [RVal.item parsed]).filterMap entryId).Nodup
    rw [hre]
    exact nodupConcat hnr hinotin
  · intro j
    show j ∈ i :: st.readSeen ↔ j ∈ (st.readList ++ [RVal.item parsed]).filterMap entryId
    rw [hre, List.mem_cons, List.mem_append, List.mem_singleton]
    constructor
    · rintro (rfl | hh)
      · exact Or.inr rfl
      · exact Or.inl ((hrs j).mp hh)
    · rintro (hh | rfl)
      · exact Or.inr ((hrs j).mpr hh)
      · exact Or.inl rfl

theorem drain_inv :
    ∀ (fuel : Nat) (st : Store) (fl : Nat), StoreInv st →
      StoreInv (Membit.drainLoop fuel st fl).1 := by
  intro fuel
  induction fuel with
  | zero => intro st fl h; exact h
  | succ fuel ih =>
    intro st fl h
    cases hg : st.inputList.getLast? with
    | none => simpa [Membit.drainLoop, hg] using h
    | some s =>
      have hs : RVal.isEmptyStr s = false := h.2.2.2.2.2 s (lastMem hg)
      simp only [Membit.drainLoop, hg, hs, Bool.false_eq_true, if_false]
      repeat' split
      all_goals rw [List.erase_cons_head]
      all_goals refine ih _ _ ?_
      · exact inv_drop_append_noid h _ rfl
      · exact inv_drop_append_noid h _ rfl
      · rename_i parsed x heq
        exact inv_drop_append_noid h _ heq
      · rename_i sv parsed x1 i heq1 x2 rs heq
        obtain ⟨hnotin, hrs2⟩ := sadd_true heq
        subst hrs2
        exact inv_drop_append_id h parsed i heq1 hnotin
      · exact inv_drop_skip h

theorem ensure_inv {st : Store} (h : StoreInv st) :
    StoreInv (Membit.ensureReadStructures st).1 := by
  obtain ⟨hp, hnr, hrs, hni, his, hcl⟩ := h
  simp only [Membit.ensureReadStructures]
  generalize hst1 :
    (if st.readList.length > 0 ∧ Membit.readListLooksValid st = false
     then { st with readList := [], readSeen := [] } else st) = st1
  have hfacts : StoreInv st1 := by
    rw [← hst1]
    split
    · refine ⟨hp, List.nodup_nil, ?_, hni, his, hcl⟩
      intro i
      simp [readIds]
    · exact ⟨hp, hnr, hrs, hni, his, hcl⟩
  obtain ⟨hp1, hnr1, hrs1, hni1, his1, hcl1⟩ := hfacts
  by_cases hz : st1.readList.length = 0
  · rw [if_pos hz]
    by_cases hin : st1.inputList.isEmpty
    · rw [if_pos hin]
      exact ⟨hp1, hnr1, hrs1, hni1, his1, hcl1⟩
    · rw [if_neg hin]
      by_cases hq : (Membit.bootFold st1.inputList st1 0).2 > 0
      · rw [if_pos hq]
        have hrl0 : st1.readList = [] := List.length_eq_zero.mp hz
        have hfe : entryId ∘ Membit.bootEntry = entryId := funext entryId_bootEntry
        refine ⟨?_, ?_, ?_, ?_, ?_, ?_⟩
        · show (Membit.bootFold st1.inputList st1 0).1.processing = []
          rw [(bootFold_frame st1.inputList st1 0).2.2.1]
          exact hp1
        · show ((Membit.bootFold st1.inputList st1 0).1.readList.filterMap entryId).Nodup
          rw [bootFold_readList st1.inputList st1 0, hrl0, List.nil_append,
            List.filterMap_map, hfe]
          exact hni1
        · intro i
          show i ∈ (Membit.bootFold st1.inputList st1 0).1.readSeen ↔
            i ∈ (Membit.bootFold st1.inputList st1 0).1.readList.filterMap entryId
          rw [bootFold_readSeen st1.inputList st1 0 i,
            bootFold_readList st1.inputList st1 0, hrl0, List.nil_append,
            List.filterMap_map, hfe]
          have hempty : ¬ i ∈ st1.readSeen := by
            rw [hrs1 i]
            simp [readIds, hrl0]
          constructor
          · rintro (hh | hh)
            · exact absurd hh hempty
            · exact hh
          · exact Or.inr
        · show ((List.filterMap entryId []).Nodup)
          exact List.nodup_nil
        · intro i hi
          simp only [inputIds] at hi
          simp at hi
        · intro e he
          simp at he
      · exfalso
        rw [bootFold_count] at hq
        simp only [List.isEmpty_iff] at hin
        have := List.length_pos.mpr hin
        omega
  · rw [if_neg hz]
    exact ⟨hp1, hnr1, hrs1, hni1, his1, hcl1⟩

theorem flushAll_inv {st : Store} (h : StoreInv st) :
    StoreInv (Membit.flushAll st).1 := by
  rcases hE : Membit.ensureReadStructures st with ⟨st1, boot⟩
  have h1 : StoreInv st1 := by
    have h2 := ensure_inv h
    rw [hE] at h2
    exact h2
  simp only [Membit.flushAll, hE]
  by_cases hb : boot ≥ 0
  · rw [if_pos hb]
    exact h1
  · rw [if_neg hb]
    rcases hd : Membit.drainLoop st1.inputList.length st1 0 with ⟨st2, fl⟩
    have h3 := drain_inv st1.inputList.length st1 0 h1
    rw [hd] at h3
    exact h3

theorem recover_inv {st : Store} (h : StoreInv st) :
    StoreInv (Membit.recoverProcessingList st).1 := by
  obtain ⟨hp, hnr, hrs, hni, his, hcl⟩ := h
  rw [recoverProcessingList_spec st (by rw [hp] ; intro e he ; simp at he)]
  rw [hp]
  simp only [List.nil_append]
  exact ⟨rfl, hnr, hrs, hni, his, hcl⟩

theorem reachable_inv {st : Store} (h : Reachable st) : StoreInv st := by
  induction h with
  | empty => exact storeInv_empty
  | submit today b hr ih => exact postCollector_inv today b ih
  | flush hr ih => exact flushAll_inv ih
  | reset today hr ih => exact reset_inv today ih
  | recover hr ih => exact recover_inv ih

/-- Claim C1: in every store reachable from the empty store by any
sequence of submissions, flushes, daily-reset checks and startup
recoveries, no two identified records in the read log share an
identifier, and READ_SEEN is exactly the set of identifiers of the
identified records present in the read log. -/
theorem C1_read_log_invariant {st : Store} (h : Reachable st) :
    (readIds st).Nodup ∧ (∀ i, i ∈ st.readSeen ↔ i ∈ readIds st) := by
  obtain ⟨_, hnr, hrs, _, _⟩ := reachable_inv h
  exact ⟨hnr, hrs⟩

theorem C1_read_log_invariant_witness :
    (readIds (Membit.flushAll (Membit.postCollector "2025-06-01" emptyStore
      (Body.arr [{ id := some (.str "1"), text := "a" },
                 { id := some (.str "1"), text := "b" },
                 { rest_id := some (.str "2") }])).1).1).Nodup ∧
    (∀ i, i ∈ (Membit.flushAll (Membit.postCollector "2025-06-01" emptyStore
      (Body.arr [{ id := some (.str "1"), text := "a" },
                 { id := some (.str "1"), text := "b" },
                 { rest_id := some (.str "2") }])).1).1.readSeen ↔
      i ∈ readIds (Membit.flushAll (Membit.postCollector "2025-06-01" emptyStore
      (Body.arr [{ id := some (.str "1"), text := "a" },
                 { id := some (.str "1"), text := "b" },
                 { rest_id := some (.str "2") }])).1).1) :=
  C1_read_log_invariant
    (Reachable.flush (Reachable.submit "2025-06-01" _ Reachable.empty))
